import Mathlib

/-!
Verification of the Thing state engine of node-iotdb (`model.js`).

The development shallowly embeds the Model ("Thing") runtime object of
`model.js`: attributes with input/output value slots, the transactional
`set`/`get`/notify/push protocol, the `_find` key-resolution algorithm and
the bridge (driver) binding lifecycle.  JavaScript side effects (listener
callbacks, event-emitter emissions, driver pushes) are made explicit as an
`Event` trace; throwing JS code is mapped to an explicit `thrown` outcome.

Helper modules that `model.js` requires (`helpers.js`, `attribute.js`,
`model_maker.js`) are not part of the sources; where their behaviour is
needed it is modelled from the spec and marked `Modelled from the spec:`.
-/

namespace Iotdb

/-- JavaScript primitive values flowing through attribute slots.  The engine
only ever compares them with `===`, which on primitives is structural
equality, so a first-order value type with decidable equality is faithful. -/
inductive Value where
  | null
  | bool (b : Bool)
  | num (n : Int)
  | str (s : String)
deriving DecidableEq, Repr

/-- Attribute roles, the expansions of `iot-attribute:role-reading` and
`iot-attribute:role-control` that `model.js` tests with `_.ld.contains`. -/
inductive Role where
  | reading
  | control
deriving DecidableEq, Repr

/-- Observable side effects of the engine, in the order they are performed:
per-attribute listener callbacks (identified by a callback id), the
`state`/`istate`/`ostate` emitter events, a batched `push` to the bridge,
the `meta` event, and an invocation of a bridge's `disconnect`/`pull`. -/
inductive Event where
  | call (cb : Nat) (code : String) (value : Value)
  | state
  | istate
  | ostate
  | push (bridge : Nat) (d : List (String × Value))
  | meta
  | disconnected (bridge : Nat)
  | pullReq (bridge : Nat)
deriving DecidableEq, Repr

def Event.isCall : Event → Bool
  | .call _ _ _ => true
  | _ => false

def Event.isPush : Event → Bool
  | .push _ _ => true
  | _ => false

def Event.isDisconnected : Event → Bool
  | .disconnected _ => true
  | _ => false

/-- JavaScript-object lookup by string key (first binding wins; keys are
kept unique by `dset`/`insertCode`). -/
def alookup {α : Type} : List (String × α) → String → Option α
  | [], _ => none
  | (k', v) :: rest, k => if k' == k then some v else alookup rest k

/-- Modelled from the spec: `_.d.set` of the absent `helpers.js` assigns a
key in a dictionary (the spec's `state()` examples are flat dictionaries,
so path handling is not needed): update in place or append. -/
def dset {α : Type} : List (String × α) → String → α → List (String × α)
  | [], k, v => [(k, v)]
  | (k', v') :: rest, k, v =>
      if k' == k then (k, v) :: rest else (k', v') :: dset rest k v

/-- JavaScript object-key insertion: a repeated assignment keeps the key's
original position, a new key is appended. The pending `_notifyd`/`_pushd`
dictionaries store the attribute (here: its code) under its code, so the
stored value is determined by the key and only the key set matters. -/
def insertCode (l : List String) (c : String) : List String :=
  if l.contains c then l else l ++ [c]

/-- JavaScript string coercion of a primitive used when a value indexes an
object (the `md[attribute_value]` lookups in `_do_pushes`). -/
def jsString : Value → String
  | .null => "null"
  | .bool true => "true"
  | .bool false => "false"
  | .num n => toString n
  | .str s => s

/-- Modelled from the spec: `_.ld.expand` of the absent `helpers.js` rewrites
a prefixed name to its canonical (expanded) purpose identifier.  The exact
prefix table is irrelevant to every claim, so the canonical form of a key is
the key itself. -/
def ldExpand (s : String) : String := s

/-- Modelled from the spec: `_.ld.compact` of the absent `helpers.js` is the
inverse prefix rewrite; with `ldExpand` the identity it is the identity. -/
def ldCompact : Value → Value := fun v => v

/-- `String.prototype.split("/")` on a character list: always returns a
non-empty list of segments. -/
def splitOnChar (sep : Char) : List Char → List (List Char)
  | [] => [[]]
  | c :: rest =>
      match splitOnChar sep rest with
      | [] => [[]]
      | seg :: segs => if c = sep then [] :: seg :: segs else (c :: seg) :: segs

/-- `find_key.replace(/\/+/, "")` — a non-global JavaScript replace: only the
first run of `/` characters is deleted. -/
def removeFirstSlashRun : List Char → List Char
  | [] => []
  | c :: rest =>
      if c = '/' then rest.dropWhile (fun c' => c' = '/')
      else c :: removeFirstSlashRun rest

/-- One attribute: a named, typed value slot.  `ivalue`/`ovalue` are the
`_ivalue`/`_ostate` slots (`null` until first pull/set), `ichanged`/`ochanged`
the direction-changed flags.  `purpose` holds the attribute's expanded
`iot:purpose` values and `roles` its expanded `iot:role` values.
`validate` is the attribute's coercive validation (`attribute.validate`
lives in the absent `attribute.js`; each instance below is modelled from the
spec's per-kind rules). -/
structure Attribute where
  code : String
  purpose : List String := []
  roles : List Role := []
  validate : Value → Value := fun v => v
  ivalue : Value := .null
  ovalue : Value := .null
  ichanged : Bool := false
  ochanged : Bool := false

/-- One transaction frame, as built by `Model.start`:
the four flags plus the pending-notify and pending-push dictionaries
(`_notifyd`/`_pushd`), which store changed attributes under their code. -/
structure Frame where
  notify : Bool
  validate : Bool
  push : Bool
  force : Bool
  _notifyd : List String := []
  _pushd : List String := []
deriving DecidableEq, Repr

/-- The `paramd` option bag passed to `Model.start`/`Model.update`: each
absent key is filled by `_.defaults` with the frame defaults. -/
structure StartParamd where
  notify : Option Bool := none
  validate : Option Bool := none
  push : Option Bool := none
  force : Option Bool := none
deriving DecidableEq, Repr

/-- The bridge (driver) capability contract as used by `model.js`:
an identity (`meta()["iot:thing"]`), the optional `binding.mapping`
enumeration dictionary, and an optional `disconnect` method returning a
wait time.  `id` identifies the bridge instance in the event trace. -/
structure Bridge where
  id : Nat
  thingMeta : String
  mapping : Option (List (String × List (String × Value))) := none
  disconnectWait : Option Int := some 0

/-- The `paramd` intent flags of `Model._find` (`{set:true}`, `{get:true}`,
`{on:true}` at the three call sites; `_.defaults` fills the rest false). -/
structure FindParamd where
  set : Bool := false
  get : Bool := false
  on' : Bool := false
deriving DecidableEq, Repr

/-- A find key: either a string key or the single-key
`{"iot:purpose": p}` dictionary that the string branch of `_find` itself
constructs for sigil/namespaced keys. -/
inductive FindKey where
  | str (s : String)
  | purpose (p : String)
deriving DecidableEq, Repr

/-- Result of `Model._find`: JavaScript `undefined` (no match), the found
attribute record, or JavaScript `null` — which the disambiguation code can
return (`return match_control` with `match_control === null`). -/
inductive FindResult where
  | notFound
  | foundNull
  | found (a : Attribute)

/-- `return`ing an `Option`al match object: a present object is the found
record, JavaScript `null` flows out as `foundNull`. -/
def foundOpt : Option Attribute → FindResult
  | some a => .found a
  | none => .foundNull

/-- Outcome of `Model.get`: `undefined`, a value, or a propagated
JavaScript exception. -/
inductive GetOutcome where
  | undef
  | value (v : Value)
  | thrown

/-- The live Thing instance of `model.js`.  `attributes` is the
`__attributes` list (declaration order; `attributed` looks codes up in it —
codes are unique per the spec's data-model invariant).  `callbacksd` is the
per-attribute-code callback registry, `callbacksNull` the `null`-key
("any attribute") entry.  `_transactions` is the transaction stack with the
innermost frame first (`_transaction` is its head).  `bridge_instance` and
`_identityd` are the bound driver and the identity resolved from it. -/
structure Model where
  code : String
  attributes : List Attribute
  callbacksd : List (String × List Nat) := []
  callbacksNull : Option (List Nat) := none
  _transactions : List Frame := []
  bridge_instance : Option Bridge := none
  _identityd : Option String := none

/-- Outcome of `Model.set`: the updated model plus emitted events, or a
propagated JavaScript exception. -/
inductive SetOutcome where
  | ok (m : Model) (evs : List Event)
  | thrown

end Iotdb

namespace Iotdb

/-- Lookup in the `attributed` dictionary (code → attribute). -/
def attrLookup : List Attribute → String → Option Attribute
  | [], _ => none
  | a :: rest, c => if a.code == c then some a else attrLookup rest c

def Model.attributed (m : Model) (c : String) : Option Attribute :=
  attrLookup m.attributes c

/-- In-place mutation of the attribute object stored under `c` (JavaScript
mutates the shared reference; with unique codes this is the list update). -/
def Model.updateAttr (m : Model) (c : String) (f : Attribute → Attribute) : Model :=
  { m with attributes := m.attributes.map (fun a => if a.code == c then f a else a) }

def Model._transaction (m : Model) : Option Frame :=
  m._transactions.head?

/-- `Model.state`: the state dictionary built on the fly, preferring
`_ivalue` (if the `istate` flag requests it and it is non-null) over
`_ovalue` over `null`. -/
def Model.state (m : Model) (istate ostate : Bool) : List (String × Value) :=
  m.attributes.foldl
    (fun st attr =>
      let attribute_value :=
        if istate ∧ attr.ivalue ≠ .null then attr.ivalue
        else if ostate ∧ attr.ovalue ≠ .null then attr.ovalue
        else .null
      dset st attr.code attribute_value)
    []

/-- The purpose-dictionary branch of `Model._find`: match every attribute
whose `iot:purpose` values contain `p` (array containment, as in the
source's `attribute_value.indexOf(match_value)` branch), then disambiguate
by role exactly as the source does — including the source's
`return match_control` in the only-reading fallback branch, where
`match_control` is necessarily `null`. -/
def Model.findPurpose (m : Model) (p : String) (paramd : FindParamd) : FindResult :=
  let matchd := m.attributes.filter (fun a => a.purpose.contains p)
  if matchd.length = 1 then
    match matchd with
    | a :: _ => .found a
    | [] => .notFound
  else
    let match_reading := matchd.foldl
      (fun acc a => if a.roles.contains .reading then some a else acc) none
    let match_control := matchd.foldl
      (fun acc a => if a.roles.contains .control then some a else acc) none
    if paramd.set && match_control.isSome then foundOpt match_control
    else if paramd.get && match_reading.isSome then foundOpt match_reading
    else if paramd.on' && match_reading.isSome then foundOpt match_reading
    else if match_control.isSome then foundOpt match_control
    else if match_reading.isSome then foundOpt match_control
    else
      match matchd with
      | [] => .notFound
      | a :: _ => .found a

/-- `Model._find`.  A string key has its first run of `/` deleted (the
source's non-global `replace(/\/+/, "")`), is split on `/`, and only the
last segment is examined: a leading `:` or an embedded `:` routes to the
purpose lookup, otherwise the segment is looked up in `attributed`.
(No descent into sub-things happens in the source.) -/
def Model._find (m : Model) (find_key : FindKey) (paramd : FindParamd) : FindResult :=
  match find_key with
  | .str s =>
      let subkeys := splitOnChar '/' (removeFirstSlashRun s.data)
      let last_key : List Char := subkeys.getLastD []
      if last_key.head? = some ':' then
        m.findPurpose (ldExpand ("iot-attribute:" ++ String.mk (last_key.drop 1))) paramd
      else if last_key.contains ':' then
        m.findPurpose (ldExpand (String.mk last_key)) paramd
      else
        match m.attributed (String.mk last_key) with
        | some attr => .found attr
        | none => .notFound
  | .purpose p => m.findPurpose p paramd

/-- `Model.get`.  An unresolvable key is logged and yields `undefined`;
a found attribute yields `_ivalue` if non-null, else `_ovalue` if non-null,
else `null`; a `null` find result raises a `TypeError` at `rd.attribute`. -/
def Model.get (m : Model) (find_key : FindKey) : GetOutcome :=
  match m._find find_key { get := true } with
  | .notFound => .undef
  | .foundNull => .thrown
  | .found attr =>
      if attr.ivalue ≠ .null then .value attr.ivalue
      else if attr.ovalue ≠ .null then .value attr.ovalue
      else .value .null

/-- The `force` flag of `_.defaults(self._transaction, {force:false, ...})`:
the innermost open frame's flag, or the default. -/
def Model.setForce (m : Model) : Bool :=
  match m._transactions with
  | [] => false
  | f :: _ => f.force

/-- The `push` flag seen by `Model.set` (default true). -/
def Model.setPush (m : Model) : Bool :=
  match m._transactions with
  | [] => true
  | f :: _ => f.push

/-- The `validate` flag seen by `Model.set` (default true). -/
def Model.setValidate (m : Model) : Bool :=
  match m._transactions with
  | [] => true
  | f :: _ => f.validate

/-- `Model._validate`: runs the attribute's coercive validation and returns
the (possibly transformed) value. -/
def Model._validate (_m : Model) (attr : Attribute) (new_value : Value) : Value :=
  attr.validate new_value

/-- The value transformation of `binding.mapping` in `_do_pushes`:
`md[attribute_value]`, falling back to `md[_.ld.compact(attribute_value)]`,
falling back to the value itself. -/
def mapValue (mapping : Option (List (String × List (String × Value))))
    (code : String) (v : Value) : Value :=
  match mapping with
  | none => v
  | some mp =>
      match alookup mp code with
      | none => v
      | some md =>
          match alookup md (jsString v) with
          | some w => w
          | none =>
              match alookup md (jsString (ldCompact v)) with
              | some w => w
              | none => v

/-- `Model._do_pushes`: nothing without a bridge; otherwise build the
push dictionary (code → mapped `_ovalue`) over the pending attributes and
deliver it to the bridge as one batched `push`. -/
def Model._do_pushes (m : Model) (attributed : List String) : List Event :=
  match m.bridge_instance with
  | none => []
  | some b =>
      let pushd := attributed.foldl
        (fun pd key =>
          match m.attributed key with
          | none => pd
          | some attr =>
              dset pd attr.code (mapValue b.mapping attr.code attr.ovalue))
        []
      [.push b.id pushd]

/-- `Model._do_push`: immediate push when no transaction is open (or when
forced immediate), otherwise record the attribute in the innermost frame's
`_pushd`. -/
def Model._do_push (m : Model) (code : String) (immediate : Bool) : Model × List Event :=
  match m._transactions with
  | [] => (m, m._do_pushes [code])
  | f :: rest =>
      if immediate then (m, m._do_pushes [code])
      else ({ m with _transactions := { f with _pushd := insertCode f._pushd code } :: rest }, [])

/-- `Model._do_notifies`: for every pending attribute, compute the callback
value (`_ivalue` preferred over `_ovalue` over `null`), invoke the
attribute's callbacks (falling back to the `null`-key callbacks), and —
if any attribute was pending — emit the `state` event. -/
def Model._do_notifies (m : Model) (attributed : List String) : List Event :=
  let evs := attributed.foldl
    (fun acc attribute_key =>
      match m.attributed attribute_key with
      | none => acc
      | some attr =>
          let attribute_value :=
            if attr.ivalue ≠ .null then attr.ivalue
            else if attr.ovalue ≠ .null then attr.ovalue
            else .null
          let callbacks :=
            match alookup m.callbacksd attribute_key with
            | some cbs => some cbs
            | none => m.callbacksNull
          match callbacks with
          | some cbs => acc ++ cbs.map (fun cb => Event.call cb attribute_key attribute_value)
          | none => acc)
    []
  if attributed.isEmpty then evs else evs ++ [.state]

/-- `Model._do_notifies2`: or together the pending attributes'
`_ichanged`/`_ochanged` flags, clear them, and emit the `istate`/`ostate`
events for the directions that changed. -/
def Model._do_notifies2 (m : Model) (attributed : List String) : Model × List Event :=
  let ichanged := attributed.any
    (fun c => match m.attributed c with | some a => a.ichanged | none => false)
  let ochanged := attributed.any
    (fun c => match m.attributed c with | some a => a.ochanged | none => false)
  let m2 := attributed.foldl
    (fun mm c => mm.updateAttr c (fun a => { a with ichanged := false, ochanged := false })) m
  (m2, (if ichanged then [Event.istate] else []) ++ (if ochanged then [Event.ostate] else []))

/-- The immediate arm of `Model._do_notify`. -/
def Model._notify_now (m : Model) (code : String) : Model × List Event :=
  let ev1 := m._do_notifies [code]
  let (m2, ev2) := m._do_notifies2 [code]
  (m2, ev1 ++ ev2)

/-- `Model._do_notify`: immediate notification when no transaction is open
(or when forced immediate), otherwise record the attribute in the innermost
frame's `_notifyd`. -/
def Model._do_notify (m : Model) (code : String) (immediate : Bool) : Model × List Event :=
  match m._transactions with
  | [] => m._notify_now code
  | f :: rest =>
      if immediate then m._notify_now code
      else ({ m with _transactions := { f with _notifyd := insertCode f._notifyd code } :: rest }, [])

/-- `Model.set`.  Key resolution failure is logged and ignored; a `null`
find result raises a `TypeError`.  With the effective transaction flags:
old value from `_ovalue` (push) or `_ivalue`, new value through validation;
no force and equal values is a complete no-op; otherwise the slot and its
changed flag are updated and push (first) and notify (second) are performed
or deferred into the open transaction. -/
def Model.set (m : Model) (find_key : FindKey) (new_value : Value) : SetOutcome :=
  match m._find find_key { set := true } with
  | .notFound => .ok m []
  | .foundNull => .thrown
  | .found attr =>
      let attribute_key := attr.code
      let attribute_value_old := if m.setPush then attr.ovalue else attr.ivalue
      let attribute_value_new :=
        if m.setValidate then m._validate attr new_value else new_value
      if m.setForce = false ∧ attribute_value_old = attribute_value_new then
        .ok m []
      else if m.setPush then
        let m1 := m.updateAttr attribute_key
          (fun a => { a with ochanged := true, ovalue := attribute_value_new })
        let (m2, ev1) := m1._do_push attribute_key false
        let (m3, ev2) := m2._do_notify attribute_key false
        .ok m3 (ev1 ++ ev2)
      else
        let m1 := m.updateAttr attribute_key
          (fun a => { a with ichanged := true, ivalue := attribute_value_new })
        let (m2, ev2) := m1._do_notify attribute_key false
        .ok m2 ev2

/-- `Model.start`: push a fresh frame with `_.defaults(paramd,
{notify:false, validate:true, push:true, force:false})` and empty pending
dictionaries; nothing is inherited from an enclosing frame. -/
def Model.start (m : Model) (paramd : StartParamd) : Model :=
  let f : Frame :=
    { notify := paramd.notify.getD false
      validate := paramd.validate.getD true
      push := paramd.push.getD true
      force := paramd.force.getD false
      _notifyd := []
      _pushd := [] }
  { m with _transactions := f :: m._transactions }

/-- `Model.end`: with no open transaction a tolerated no-op; otherwise, in
order: per-attribute notifications (only if the frame's `notify` flag),
the unconditional `istate`/`ostate` pass (clearing the changed flags),
the batched driver push (only if the frame's `push` flag), then pop. -/
def Model.end' (m : Model) : Model × List Event :=
  match m._transactions with
  | [] => (m, [])
  | f :: rest =>
      let ev1 := if f.notify then m._do_notifies f._notifyd else []
      let (m2, ev2) := m._do_notifies2 f._notifyd
      let ev3 := if f.push then m2._do_pushes f._pushd else []
      ({ m2 with _transactions := rest }, ev1 ++ ev2 ++ ev3)

/-- `Model.update`: `start` with `_.defaults(paramd, {notify:true})`, `set`
every key of the dictionary in order, `end`.  A `set` that throws
propagates (`none`). -/
def Model.update (m : Model) (updated : List (String × Value)) (paramd : StartParamd) :
    Option (Model × List Event) :=
  let paramd := { paramd with notify := some (paramd.notify.getD true) }
  let m1 := m.start paramd
  let stepped := updated.foldl
    (fun acc kv =>
      match acc with
      | none => none
      | some (mm, evs) =>
          match mm.set (.str kv.1) kv.2 with
          | .ok mm' evs' => some (mm', evs ++ evs')
          | .thrown => none)
    (some (m1, []))
  match stepped with
  | none => none
  | some (m2, evs) =>
      let (m3, evs2) := m2.end'
      some (m3, evs ++ evs2)

/-- `Model.identity`: the resolved identity (its `thing_id`), or `null`. -/
def Model.identity (m : Model) : Option String :=
  m._identityd

def Model.thing_id (m : Model) : Option String :=
  m.identity

/-- `Model.meta_changed`: emit the `meta` event (the process is not
shutting down). -/
def Model.meta_changed (_m : Model) : List Event :=
  [Event.meta]

/-- `Model.pull`: ask the bridge for a refresh (a no-op when unbound). -/
def Model.pull (m : Model) : List Event :=
  match m.bridge_instance with
  | none => []
  | some b => [Event.pullReq b.id]

/-- `Model.bind_bridge`: store the bridge (replacing any previous one
without disconnecting it), wire the `pulled` callback (its behaviour is
`Model.pulled` below), recompute `_identityd` from the new bridge's
`meta()["iot:thing"]` plus the model code, and signal `meta_changed`. -/
def Model.bind_bridge (m : Model) (bridge_instance : Option Bridge) : Model × List Event :=
  let m1 := { m with bridge_instance := bridge_instance }
  match bridge_instance with
  | some b =>
      let m2 := { m1 with _identityd := some (b.thingMeta ++ ":" ++ m.code) }
      (m2, m2.meta_changed)
  | none => (m1, m1.meta_changed)

/-- `Model.disconnect`: invoke the bridge's `disconnect` (when it has one),
drop the binding, and return the wait time (0 without a bridge or without
a `disconnect` method). -/
def Model.disconnect (m : Model) : Model × List Event × Int :=
  match m.bridge_instance with
  | none => (m, [], 0)
  | some b =>
      match b.disconnectWait with
      | some w => ({ m with bridge_instance := none }, [Event.disconnected b.id], w)
      | none => ({ m with bridge_instance := none }, [], 0)

/-- The `pulled` callback installed by `bind_bridge`: a `null` pull only
signals `meta_changed`; a dictionary is reverse-mapped through
`binding.mapping` and applied as `update(pulld, {notify:true, push:false,
force:false})`. -/
def Model.pulled (m : Model) (pulld : Option (List (String × Value))) :
    Option (Model × List Event) :=
  match pulld with
  | none => some (m, m.meta_changed)
  | some pd =>
      let pd' :=
        match m.bridge_instance with
        | some b =>
            (match b.mapping with
             | some mp => pd.map
                 (fun kv =>
                   match alookup mp kv.1 with
                   | none => kv
                   | some md =>
                       match md.find? (fun e => e.2 == kv.2 || e.2 == ldCompact kv.2) with
                       | some e => (kv.1, Value.str e.1)
                       | none => kv)
             | none => pd)
        | none => pd
      m.update pd' { notify := some true, push := some false, force := some false }

/-- A client operation, for stating multi-step scenarios. -/
inductive Op where
  | start (paramd : StartParamd)
  | set (key : FindKey) (v : Value)
  | endTx
deriving Repr

/-- Run a list of operations, accumulating the event trace; a thrown `set`
aborts the run. -/
def Model.run (m : Model) (ops : List Op) : Option (Model × List Event) :=
  ops.foldl
    (fun acc op =>
      match acc with
      | none => none
      | some (mm, evs) =>
          match op with
          | .start p => some (mm.start p, evs)
          | .set k v =>
              match mm.set k v with
              | .ok m' e' => some (m', evs ++ e')
              | .thrown => none
          | .endTx =>
              let (m', e') := mm.end'
              some (m', evs ++ e'))
    (some (m, []))

/-! ### Concrete fixtures (used as witnesses and counterexamples) -/

/-- Modelled from the spec: boolean attribute validation coerces any
truthy/falsy input — numeric truthiness included — to `true`/`false`
(spec §4.1 and the `test_thing_setup.js` observations
`set('on', 10)` reads back `true`, `set('on', 0)` reads back `false`). -/
def booleanCoerce : Value → Value
  | .null => .bool false
  | .bool b => .bool b
  | .num n => .bool (n != 0)
  | .str s => .bool (s != "")

/-- The `on` boolean control attribute of the test models. -/
def attrOn : Attribute :=
  { code := "on", purpose := ["iot-attribute:on"], roles := [.control],
    validate := booleanCoerce }

/-- The `intensity` number control attribute of the test models (no
minimum/maximum constraints: validation passes number values through,
modelled from the spec's integer/number rule). -/
def attrIntensity : Attribute :=
  { code := "intensity", purpose := ["iot-attribute:intensity"], roles := [.control] }

/-- A reading-only temperature attribute; `attrT1`/`attrT2` share the
purpose, neither carries the control role. -/
def attrT1 : Attribute :=
  { code := "t1", purpose := ["iot-attribute:temperature"], roles := [.reading] }

def attrT2 : Attribute :=
  { code := "t2", purpose := ["iot-attribute:temperature"], roles := [.reading] }

def bridgeA : Bridge := { id := 0, thingMeta := "urn:thing-a" }

def bridgeB : Bridge := { id := 1, thingMeta := "urn:thing-b" }

/-- A bound two-attribute Thing with one listener on each attribute. -/
def Mw : Model :=
  { code := "T", attributes := [attrOn, attrIntensity],
    callbacksd := [("on", [7]), ("intensity", [8])],
    bridge_instance := some bridgeA }

/-- A Thing with two reading attributes sharing one purpose. -/
def Mtemp : Model :=
  { code := "W", attributes := [attrT1, attrT2] }

/-- An unbound one-attribute Thing. -/
def M0 : Model := { code := "L", attributes := [attrOn] }

/-- `M0` after its first driver binding. -/
def M6 : Model := (M0.bind_bridge (some bridgeA)).1

/-- `attrOn` with its output slot already holding `true`. -/
def attrOnSet : Attribute := { attrOn with ovalue := Value.bool true }

/-- A bound Thing whose `on` attribute is already set. -/
def Mw2 : Model :=
  { code := "T2", attributes := [attrOnSet, attrIntensity],
    callbacksd := [("on", [7])], bridge_instance := some bridgeA }

/-- A plain force-false transaction frame. -/
def Fw : Frame := { notify := false, validate := true, push := true, force := false }

/-- A notify-and-push frame with the `on` attribute pending. -/
def Fc3 : Frame :=
  { notify := true, validate := true, push := true, force := false,
    _notifyd := ["on"], _pushd := ["on"] }

/-- `Mw` inside the transaction frame `Fc3`. -/
def Mc3 : Model := { Mw with _transactions := [Fc3] }

/-- An attribute whose input and output slots are both non-null. -/
def attrBoth : Attribute := { code := "x", ivalue := Value.num 1, ovalue := Value.num 2 }

def M7 : Model := { code := "B", attributes := [attrBoth] }

end Iotdb

namespace Iotdb

/-! ### Basic lemmas about the embedding -/

@[simp] theorem updateAttr_callbacksd (m : Model) (c : String) (f : Attribute → Attribute) :
    (m.updateAttr c f).callbacksd = m.callbacksd := rfl

@[simp] theorem updateAttr_callbacksNull (m : Model) (c : String) (f : Attribute → Attribute) :
    (m.updateAttr c f).callbacksNull = m.callbacksNull := rfl

@[simp] theorem updateAttr_transactions (m : Model) (c : String) (f : Attribute → Attribute) :
    (m.updateAttr c f)._transactions = m._transactions := rfl

@[simp] theorem updateAttr_bridge (m : Model) (c : String) (f : Attribute → Attribute) :
    (m.updateAttr c f).bridge_instance = m.bridge_instance := rfl

@[simp] theorem updateAttr_identityd (m : Model) (c : String) (f : Attribute → Attribute) :
    (m.updateAttr c f)._identityd = m._identityd := rfl

@[simp] theorem updateAttr_code (m : Model) (c : String) (f : Attribute → Attribute) :
    (m.updateAttr c f).code = m.code := rfl

/-- A successful `attributed` lookup returns an attribute carrying the
looked-up code. -/
theorem attrLookup_code {l : List Attribute} {c : String} {a : Attribute}
    (h : attrLookup l c = some a) : a.code = c := by
  induction l with
  | nil => simp [attrLookup] at h
  | cons x rest ih =>
    by_cases hx : (x.code == c) = true
    · rw [attrLookup, if_pos hx] at h
      injection h with h
      subst h
      exact eq_of_beq hx
    · rw [attrLookup, if_neg hx] at h
      exact ih h

/-- Looking a code up after a code-preserving in-place update. -/
theorem attrLookup_map (l : List Attribute) (c0 c : String) (f : Attribute → Attribute)
    (hf : ∀ x, (f x).code = x.code) :
    attrLookup (l.map fun x => if x.code == c0 then f x else x) c
      = (attrLookup l c).map fun x => if x.code == c0 then f x else x := by
  induction l with
  | nil => rfl
  | cons x rest ih =>
    simp only [List.map_cons, attrLookup, apply_ite Attribute.code, hf, ite_self]
    by_cases hx : (x.code == c) = true
    · rw [if_pos hx, if_pos hx, Option.map_some']
    · rw [if_neg hx, if_neg hx, ih]

theorem attributed_updateAttr (m : Model) (c0 c : String) (f : Attribute → Attribute)
    (hf : ∀ x, (f x).code = x.code) :
    (m.updateAttr c0 f).attributed c
      = (m.attributed c).map fun x => if x.code == c0 then f x else x :=
  attrLookup_map m.attributes c0 c f hf

theorem splitOnChar_no_sep (sep : Char) (l : List Char) (h : sep ∉ l) :
    splitOnChar sep l = [l] := by
  induction l with
  | nil => rfl
  | cons c rest ih =>
    have hc : c ≠ sep := fun hc => h (hc ▸ List.mem_cons_self c rest)
    have hr : sep ∉ rest := fun hr => h (List.mem_cons_of_mem c hr)
    rw [splitOnChar, ih hr]
    simp [hc]

theorem removeFirstSlashRun_no_slash (l : List Char) (h : '/' ∉ l) :
    removeFirstSlashRun l = l := by
  induction l with
  | nil => rfl
  | cons c rest ih =>
    have hc : c ≠ '/' := fun hc => h (hc ▸ List.mem_cons_self c rest)
    have hr : '/' ∉ rest := fun hr => h (List.mem_cons_of_mem c hr)
    rw [removeFirstSlashRun, if_neg hc, ih hr]

/-- A plain code key — no `/`, no `:` — resolves by direct lookup in
`attributed`. -/
theorem mfind_str_code (m : Model) (s : String) (paramd : FindParamd)
    (h1 : ':' ∉ s.data) (h2 : '/' ∉ s.data) :
    m._find (.str s) paramd
      = (match m.attributed s with
         | some a => FindResult.found a
         | none => FindResult.notFound) := by
  have hrm : removeFirstSlashRun s.data = s.data := removeFirstSlashRun_no_slash _ h2
  have hsp : splitOnChar '/' s.data = [s.data] := splitOnChar_no_sep _ _ h2
  have hh : ¬ (s.data.head? = some ':') := by
    cases hd : s.data with
    | nil => simp
    | cons c cs =>
      simp only [List.head?, Option.some.injEq]
      intro hcon
      exact h1 (hd ▸ (hcon ▸ List.mem_cons_self c cs))
  have hc : (s.data.contains ':') = false := by
    simpa using h1
  have hmk : String.mk s.data = s := rfl
  rw [Model._find, hrm, hsp]
  have hlast : ([s.data] : List (List Char)).getLastD [] = s.data := rfl
  simp only [hlast, if_neg hh, hc, Bool.false_eq_true, if_false, hmk]

/-! ### Characterizations of `Model.set` -/

/-- Dedup: no force and an unchanged (validated) value is a complete no-op. -/
theorem set_noop (m : Model) (key : FindKey) (v : Value) (a : Attribute)
    (hfind : m._find key { set := true } = .found a)
    (hforce : m.setForce = false)
    (heq : (if m.setPush then a.ovalue else a.ivalue)
            = (if m.setValidate then a.validate v else v)) :
    m.set key v = .ok m [] := by
  simp only [Model.set, hfind, Model._validate]
  rw [if_pos ⟨hforce, heq⟩]

/-- A value-changing `set` with no open transaction: updates the slot,
pushes to the bridge first, then notifies listeners and emits the coarse
events, clearing the changed flags. -/
theorem set_immediate (m : Model) (key : FindKey) (v : Value) (a : Attribute)
    (hfind : m._find key { set := true } = .found a)
    (htx : m._transactions = [])
    (hmem : m.attributed a.code = some a)
    (hne : ¬ (a.ovalue = a.validate v)) :
    m.set key v = .ok
      ((m.updateAttr a.code (fun x => { x with ochanged := true, ovalue := a.validate v })).updateAttr
          a.code (fun x => { x with ichanged := false, ochanged := false }))
      ((match m.bridge_instance with
        | none => ([] : List Event)
        | some b => [Event.push b.id [(a.code, mapValue b.mapping a.code (a.validate v))]])
       ++ ((match (match alookup m.callbacksd a.code with
                   | some cbs => some cbs
                   | none => m.callbacksNull) with
            | some cbs => cbs.map (fun cb => Event.call cb a.code
                (if a.ivalue ≠ Value.null then a.ivalue
                 else if a.validate v ≠ Value.null then a.validate v
                 else Value.null))
            | none => ([] : List Event))
           ++ ([Event.state]
           ++ ((if a.ichanged = true then [Event.istate] else []) ++ [Event.ostate])))) := by
  have hsf : m.setForce = false := by simp only [Model.setForce, htx]
  have hsp : m.setPush = true := by simp only [Model.setPush, htx]
  have hsv : m.setValidate = true := by simp only [Model.setValidate, htx]
  have hupd : (m.updateAttr a.code fun x =>
        { x with ochanged := true, ovalue := a.validate v }).attributed a.code
      = some { a with ochanged := true, ovalue := a.validate v } := by
    rw [attributed_updateAttr m a.code a.code
          (fun x => { x with ochanged := true, ovalue := a.validate v }) (fun x => rfl), hmem]
    simp
  simp only [Model.set, hfind, Model._validate, hsf, hsp, hsv, if_true]
  rw [if_neg (by simp [hne])]
  simp only [Model._do_push, Model._do_notify, Model._notify_now, Model._do_pushes,
    Model._do_notifies, Model._do_notifies2, updateAttr_transactions, htx,
    updateAttr_bridge, updateAttr_callbacksd, updateAttr_callbacksNull,
    List.foldl_cons, List.foldl_nil, List.any_cons, List.any_nil, hupd,
    List.isEmpty_cons, Bool.or_false, dset]
  simp [List.append_assoc]
/-- A `set` inside an open transaction (push flag on) that is forced or
value-changing: updates the slot and records the attribute in the frame's
pending push and notify dictionaries; no event is emitted yet. -/
theorem set_deferred_push (m : Model) (key : FindKey) (v : Value) (a : Attribute)
    (f : Frame) (rest : List Frame)
    (hfind : m._find key { set := true } = .found a)
    (htx : m._transactions = f :: rest)
    (hp : f.push = true)
    (hcond : ¬ (f.force = false ∧ a.ovalue = (if f.validate then a.validate v else v))) :
    m.set key v = .ok
      { m.updateAttr a.code (fun x =>
          { x with ochanged := true, ovalue := (if f.validate then a.validate v else v) }) with
        _transactions :=
          { f with _pushd := insertCode f._pushd a.code,
                   _notifyd := insertCode f._notifyd a.code } :: rest }
      [] := by
  have hsf : m.setForce = f.force := by simp only [Model.setForce, htx]
  have hsp : m.setPush = true := by simp only [Model.setPush, htx, hp]
  have hsv : m.setValidate = f.validate := by simp only [Model.setValidate, htx]
  simp only [Model.set, hfind, Model._validate, hsf, hsp, hsv, if_true]
  rw [if_neg hcond]
  simp only [Model._do_push, Model._do_notify, updateAttr_transactions, htx,
    if_true, Bool.false_eq_true, if_false]
  simp

/-- `end` with no open transaction is a tolerated no-op. -/
theorem end_notx (m : Model) (htx : m._transactions = []) : m.end' = (m, []) := by
  simp only [Model.end', htx]

/-- `end` of a frame whose pending dictionaries hold the single attribute
`c`: notify (when the flag asks for it), emit the coarse events and clear
the flags, then push the batch (when the flag asks for it), then pop. -/
theorem end_singleton (m : Model) (f : Frame) (rest : List Frame) (c : String) (a : Attribute)
    (htx : m._transactions = f :: rest)
    (hnd : f._notifyd = [c]) (hpd : f._pushd = [c])
    (hmem : m.attributed c = some a) :
    m.end' = (
      { m.updateAttr c (fun x => { x with ichanged := false, ochanged := false }) with
          _transactions := rest },
      (if f.notify then
         ((match (match alookup m.callbacksd c with
                  | some cbs => some cbs
                  | none => m.callbacksNull) with
           | some cbs => cbs.map (fun cb => Event.call cb c
               (if a.ivalue ≠ Value.null then a.ivalue
                else if a.ovalue ≠ Value.null then a.ovalue
                else Value.null))
           | none => ([] : List Event)) ++ [Event.state])
       else [])
      ++ (((if a.ichanged = true then [Event.istate] else [])
          ++ (if a.ochanged = true then [Event.ostate] else []))
      ++ (if f.push then
            (match m.bridge_instance with
             | none => ([] : List Event)
             | some b => [Event.push b.id [(c, mapValue b.mapping c a.ovalue)]])
          else []))) := by
  have hac : a.code = c := attrLookup_code hmem
  have hclear : (m.updateAttr c fun x =>
        { x with ichanged := false, ochanged := false }).attributed c
      = some { a with ichanged := false, ochanged := false } := by
    rw [attributed_updateAttr m c c
          (fun x => { x with ichanged := false, ochanged := false }) (fun x => rfl), hmem]
    simp [hac]
  simp only [Model.end', htx, hnd, hpd, Model._do_notifies, Model._do_notifies2,
    Model._do_pushes, List.foldl_cons, List.foldl_nil, List.any_cons, List.any_nil,
    hmem, hclear, updateAttr_bridge, updateAttr_callbacksd, updateAttr_callbacksNull,
    List.isEmpty_cons, Bool.or_false, dset, hac]
  simp [List.append_assoc, hac]

@[simp] theorem start_attributes (m : Model) (p : StartParamd) :
    (m.start p).attributes = m.attributes := rfl

@[simp] theorem start_callbacksd (m : Model) (p : StartParamd) :
    (m.start p).callbacksd = m.callbacksd := rfl

@[simp] theorem start_callbacksNull (m : Model) (p : StartParamd) :
    (m.start p).callbacksNull = m.callbacksNull := rfl

@[simp] theorem start_bridge (m : Model) (p : StartParamd) :
    (m.start p).bridge_instance = m.bridge_instance := rfl

/-- Two in-place updates of the same attribute compose. -/
theorem map_update_update (l : List Attribute) (c : String)
    (f g : Attribute → Attribute) (hf : ∀ x, (f x).code = x.code) :
    (l.map (fun x => if x.code == c then f x else x)).map
        (fun x => if x.code == c then g x else x)
      = l.map (fun x => if x.code == c then g (f x) else x) := by
  rw [List.map_map]
  apply List.map_congr_left
  intro x _
  by_cases hxc : (x.code == c) = true
  · simp [Function.comp, hxc, hf x]
  · simp [Function.comp, hxc]

/-- One forced transaction round — `start({force:true, notify:true})`,
`set`, `end` — on an attribute whose validated value equals the current
output value: even though nothing changes, the round marks the attribute
changed, notifies the listeners and pushes the batch to the bridge. -/
theorem forced_round (m : Model) (s : String) (v : Value) (a : Attribute) (b : Bridge)
    (h1 : ':' ∉ s.data) (h2 : '/' ∉ s.data)
    (ha : m.attributed s = some a)
    (htx : m._transactions = [])
    (hb : m.bridge_instance = some b)
    (_hval : a.validate v = a.ovalue) :
    m.run [Op.start { notify := some true, force := some true }, Op.set (.str s) v, Op.endTx]
      = some (
        { m.updateAttr s (fun x =>
            { x with ovalue := a.validate v, ichanged := false, ochanged := false }) with
          _transactions := [] },
        ((match (match alookup m.callbacksd s with
                 | some cbs => some cbs
                 | none => m.callbacksNull) with
          | some cbs => cbs.map (fun cb => Event.call cb s
              (if a.ivalue ≠ Value.null then a.ivalue
               else if a.validate v ≠ Value.null then a.validate v
               else Value.null))
          | none => ([] : List Event)) ++ [Event.state])
        ++ (((if a.ichanged = true then [Event.istate] else []) ++ [Event.ostate])
        ++ [Event.push b.id [(s, mapValue b.mapping s (a.validate v))]])) := by
  have hac : a.code = s := attrLookup_code ha
  have hm1tx : (m.start { notify := some true, force := some true })._transactions
      = ({ notify := true, validate := true, push := true, force := true,
           _notifyd := [], _pushd := [] } : Frame) :: [] := by
    simp [Model.start, htx]
  have hfind1 : (m.start { notify := some true, force := some true })._find
      (.str s) { set := true } = .found a := by
    rw [mfind_str_code _ s _ h1 h2]
    rw [show (m.start { notify := some true, force := some true }).attributed s
          = m.attributed s from rfl, ha]
  have hset := set_deferred_push (m.start { notify := some true, force := some true })
    (.str s) v a
    ({ notify := true, validate := true, push := true, force := true,
       _notifyd := [], _pushd := [] } : Frame) [] hfind1 hm1tx rfl (by simp)
  rw [if_pos rfl] at hset
  have hmem2 : ({ (m.start { notify := some true, force := some true }).updateAttr a.code
        (fun x => { x with ochanged := true, ovalue := a.validate v }) with
      _transactions :=
        ({ notify := true, validate := true, push := true, force := true,
           _notifyd := insertCode [] a.code, _pushd := insertCode [] a.code } : Frame) :: [] } :
      Model).attributed s
      = some { a with ochanged := true, ovalue := a.validate v } := by
    show ((m.start { notify := some true, force := some true }).updateAttr a.code
        (fun x => { x with ochanged := true, ovalue := a.validate v })).attributed s = _
    rw [hac]
    rw [attributed_updateAttr _ s s
          (fun x => { x with ochanged := true, ovalue := a.validate v }) (fun x => rfl)]
    rw [show (m.start { notify := some true, force := some true }).attributed s
          = m.attributed s from rfl, ha]
    simp [hac]
  have htx2 : ({ (m.start { notify := some true, force := some true }).updateAttr a.code
        (fun x => { x with ochanged := true, ovalue := a.validate v }) with
      _transactions :=
        ({ notify := true, validate := true, push := true, force := true,
           _notifyd := insertCode [] a.code, _pushd := insertCode [] a.code } : Frame) :: [] } :
      Model)._transactions
      = ({ notify := true, validate := true, push := true, force := true,
           _notifyd := [s], _pushd := [s] } : Frame) :: [] := by
    simp [insertCode, hac]
  have hend := end_singleton _ _ [] s { a with ochanged := true, ovalue := a.validate v }
    htx2 rfl rfl hmem2
  simp only [Model.run, List.foldl_cons, List.foldl_nil]
  rw [hset]
  simp only []
  rw [hend]
  simp only [List.nil_append, List.append_nil]
  refine congrArg some (Prod.ext ?_ ?_)
  · show ({ ((m.start { notify := some true, force := some true }).updateAttr a.code
        (fun x => { x with ochanged := true, ovalue := a.validate v })).updateAttr s
        (fun x => { x with ichanged := false, ochanged := false }) with
      _transactions := ([] : List Frame) } : Model)
      = _
    rw [hac]
    simp only [Model.updateAttr, start_attributes]
    rw [map_update_update m.attributes s
         (fun x => { x with ochanged := true, ovalue := a.validate v })
         (fun x => { x with ichanged := false, ochanged := false }) (fun x => rfl)]
    rfl
  · simp [hb, hac]
/-! ### The claims -/

/-- Claim C1: a `set` whose new value (validated) equals the old value —
`_ovalue` when the push flag is in effect, `_ivalue` otherwise — with the
transaction `force` flag false is a pure no-op (no mutation, no event,
both with no open transaction and inside any force-false frame); with
`force := true`, repeating the identical bracketed set re-triggers the
notification (listener callbacks, `state`, `ostate`) and the driver push,
both times. -/
theorem claim_C1 (m : Model) (s : String) (v : Value) (a : Attribute) (b : Bridge)
    (f : Frame) (rest : List Frame)
    (h1 : ':' ∉ s.data) (h2 : '/' ∉ s.data)
    (ha : m.attributed s = some a)
    (htx : m._transactions = [])
    (hb : m.bridge_instance = some b)
    (hval : a.validate v = a.ovalue)
    (hf : f.force = false)
    (hfv : (if f.push then a.ovalue else a.ivalue) = (if f.validate then a.validate v else v)) :
    m.set (.str s) v = .ok m []
    ∧ ({ m with _transactions := f :: rest } : Model).set (.str s) v
        = .ok { m with _transactions := f :: rest } []
    ∧ (∃ m1 evs1,
        m.run [Op.start { notify := some true, force := some true },
               Op.set (.str s) v, Op.endTx] = some (m1, evs1)
        ∧ (∃ pd, Event.push b.id pd ∈ evs1)
        ∧ Event.state ∈ evs1 ∧ Event.ostate ∈ evs1
        ∧ (∀ l, alookup m.callbacksd s = some l →
            ∀ cb ∈ l, ∃ val, Event.call cb s val ∈ evs1)
        ∧ ∃ m2 evs2,
            m1.run [Op.start { notify := some true, force := some true },
                    Op.set (.str s) v, Op.endTx] = some (m2, evs2)
            ∧ (∃ pd, Event.push b.id pd ∈ evs2)
            ∧ Event.state ∈ evs2 ∧ Event.ostate ∈ evs2
            ∧ (∀ l, alookup m.callbacksd s = some l →
                ∀ cb ∈ l, ∃ val, Event.call cb s val ∈ evs2)) := by
  have hac : a.code = s := attrLookup_code ha
  have hfind : m._find (.str s) { set := true } = .found a := by
    rw [mfind_str_code m s _ h1 h2, ha]
  refine ⟨?_, ?_, ?_⟩
  · exact set_noop m (.str s) v a hfind
      (by simp [Model.setForce, htx])
      (by simp [Model.setPush, Model.setValidate, htx, hval.symm])
  · have hfind' : ({ m with _transactions := f :: rest } : Model)._find
        (.str s) { set := true } = .found a := by
      rw [mfind_str_code _ s _ h1 h2]
      rw [show ({ m with _transactions := f :: rest } : Model).attributed s
            = m.attributed s from rfl, ha]
    exact set_noop _ (.str s) v a hfind'
      (by simp [Model.setForce, hf])
      (by simpa [Model.setPush, Model.setValidate] using hfv)
  · have hr1 := forced_round m s v a b h1 h2 ha htx hb hval
    refine ⟨_, _, hr1, ⟨[(s, mapValue b.mapping s (a.validate v))], by simp⟩,
      by simp, by simp, ?_, ?_⟩
    · intro l hl cb hcb
      simp only [hl]
      exact ⟨_, List.mem_append_left _ (List.mem_append_left _ (List.mem_map_of_mem _ hcb))⟩
    · have ha2 : ({ m.updateAttr s (fun x =>
            { x with ovalue := a.validate v, ichanged := false, ochanged := false }) with
          _transactions := ([] : List Frame) } : Model).attributed s
          = some { a with ovalue := a.validate v, ichanged := false, ochanged := false } := by
        show (m.updateAttr s (fun x =>
            { x with ovalue := a.validate v, ichanged := false, ochanged := false })).attributed s = _
        rw [attributed_updateAttr m s s
              (fun x => { x with ovalue := a.validate v, ichanged := false, ochanged := false })
              (fun x => rfl), ha]
        simp [hac]
      have hr2 := forced_round _ s v
        { a with ovalue := a.validate v, ichanged := false, ochanged := false } b h1 h2
        ha2 rfl (by simpa using hb) rfl
      refine ⟨_, _, hr2, ⟨[(s, mapValue b.mapping s (a.validate v))], by simp⟩,
        by simp, by simp, ?_⟩
      intro l hl cb hcb
      have hl' : alookup ({ m.updateAttr s (fun x =>
            { x with ovalue := a.validate v, ichanged := false, ochanged := false }) with
          _transactions := ([] : List Frame) } : Model).callbacksd s = some l := by
        simpa using hl
      simp only [hl']
      exact ⟨_, List.mem_append_left _ (List.mem_append_left _ (List.mem_map_of_mem _ hcb))⟩

@[simp] theorem ite_ne_null_self (v : Value) :
    (if v ≠ Value.null then v else Value.null) = v := by
  by_cases h : v = Value.null <;> simp [h]

/-- Claim C2, counterexample: the claim's scenario with a bare `start()` —
whose `notify` flag defaults to false — dispatches NO per-attribute
notification at all on a bound Thing with a registered listener, not
"exactly one notification for A carrying value 2": the trace holds only
the `ostate` event and the single batched push `{intensity: 2}`. -/
theorem claim_C2_counterexample :
    (Mw.run [Op.start {}, Op.set (.str "intensity") (.num 1),
             Op.set (.str "intensity") (.num 2), Op.endTx]).map Prod.snd
      = some [Event.ostate, Event.push 0 [("intensity", Value.num 2)]] := by
  rfl

/-- Claim C2 (amended): within one open transaction started with
`{notify:true}`, repeated sets to the same attribute are coalesced keyed by
attribute code — last write wins — so `start({notify:true}); set(A,v1);
set(A,v2); end()` dispatches exactly one per-attribute notification,
carrying `v2`, and exactly one driver push whose dictionary is `{A: v2}`.
(With a bare `start()` the frame's `notify` flag defaults to false and the
per-attribute notification is skipped while the push still happens once —
see the counterexample.) -/
theorem claim_C2 (m : Model) (s : String) (v1 v2 : Value) (a : Attribute) (b : Bridge)
    (cb : Nat)
    (h1 : ':' ∉ s.data) (h2 : '/' ∉ s.data)
    (ha : m.attributed s = some a)
    (htx : m._transactions = [])
    (hb : m.bridge_instance = some b)
    (hmap : b.mapping = none)
    (hcb : alookup m.callbacksd s = some [cb])
    (hiv : a.ivalue = Value.null)
    (hv1 : a.validate v1 = v1)
    (hv2 : a.validate v2 = v2)
    (hne1 : ¬ (a.ovalue = v1))
    (hne2 : ¬ (v1 = v2)) :
    ∃ m' evs,
      m.run [Op.start { notify := some true }, Op.set (.str s) v1,
             Op.set (.str s) v2, Op.endTx] = some (m', evs)
      ∧ evs.filter Event.isCall = [Event.call cb s v2]
      ∧ evs.filter Event.isPush = [Event.push b.id [(s, v2)]] := by
  have hac : a.code = s := attrLookup_code ha
  have hm1tx : (m.start { notify := some true })._transactions
      = ({ notify := true, validate := true, push := true, force := false,
           _notifyd := [], _pushd := [] } : Frame) :: [] := by
    simp [Model.start, htx]
  have hfind1 : (m.start { notify := some true })._find (.str s) { set := true }
      = .found a := by
    rw [mfind_str_code _ s _ h1 h2]
    rw [show (m.start { notify := some true }).attributed s = m.attributed s from rfl, ha]
  have hset1 := set_deferred_push (m.start { notify := some true }) (.str s) v1 a
    ({ notify := true, validate := true, push := true, force := false,
       _notifyd := [], _pushd := [] } : Frame) [] hfind1 hm1tx rfl
    (by simp [hv1]; exact hne1)
  rw [if_pos rfl] at hset1
  simp only [hv1] at hset1
  have hmem2 : ({ (m.start { notify := some true }).updateAttr a.code
        (fun x => { x with ochanged := true, ovalue := v1 }) with
      _transactions :=
        ({ notify := true, validate := true, push := true, force := false,
           _notifyd := insertCode [] a.code, _pushd := insertCode [] a.code } : Frame) :: [] } :
      Model).attributed s
      = some { a with ochanged := true, ovalue := v1 } := by
    show ((m.start { notify := some true }).updateAttr a.code
        (fun x => { x with ochanged := true, ovalue := v1 })).attributed s = _
    rw [attributed_updateAttr _ a.code s
          (fun x => { x with ochanged := true, ovalue := v1 }) (fun x => rfl)]
    rw [show (m.start { notify := some true }).attributed s = m.attributed s from rfl, ha]
    simp
  have htx2 : ({ (m.start { notify := some true }).updateAttr a.code
        (fun x => { x with ochanged := true, ovalue := v1 }) with
      _transactions :=
        ({ notify := true, validate := true, push := true, force := false,
           _notifyd := insertCode [] a.code, _pushd := insertCode [] a.code } : Frame) :: [] } :
      Model)._transactions
      = ({ notify := true, validate := true, push := true, force := false,
           _notifyd := [s], _pushd := [s] } : Frame) :: [] := by
    simp [insertCode, hac]
  have hfind2 : ({ (m.start { notify := some true }).updateAttr a.code
        (fun x => { x with ochanged := true, ovalue := v1 }) with
      _transactions :=
        ({ notify := true, validate := true, push := true, force := false,
           _notifyd := insertCode [] a.code, _pushd := insertCode [] a.code } : Frame) :: [] } :
      Model)._find (.str s) { set := true }
      = .found { a with ochanged := true, ovalue := v1 } := by
    rw [mfind_str_code _ s _ h1 h2, hmem2]
  have hset2 := set_deferred_push _ (.str s) v2 { a with ochanged := true, ovalue := v1 }
    ({ notify := true, validate := true, push := true, force := false,
       _notifyd := [s], _pushd := [s] } : Frame) [] hfind2 htx2 rfl
    (by simp [hv2]; exact hne2)
  rw [if_pos rfl] at hset2
  simp only [hv2] at hset2
  have hmem3 : ({ ({ (m.start { notify := some true }).updateAttr a.code
        (fun x => { x with ochanged := true, ovalue := v1 }) with
      _transactions :=
        ({ notify := true, validate := true, push := true, force := false,
           _notifyd := insertCode [] a.code, _pushd := insertCode [] a.code } : Frame) :: [] } :
      Model).updateAttr a.code (fun x => { x with ochanged := true, ovalue := v2 }) with
      _transactions :=
        ({ notify := true, validate := true, push := true, force := false,
           _notifyd := insertCode [s] a.code, _pushd := insertCode [s] a.code } : Frame) :: [] } :
      Model).attributed s
      = some { a with ochanged := true, ovalue := v2 } := by
    show (({ (m.start { notify := some true }).updateAttr a.code
        (fun x => { x with ochanged := true, ovalue := v1 }) with
      _transactions :=
        ({ notify := true, validate := true, push := true, force := false,
           _notifyd := insertCode [] a.code, _pushd := insertCode [] a.code } : Frame) :: [] } :
      Model).updateAttr a.code (fun x => { x with ochanged := true, ovalue := v2 })).attributed s
      = _
    rw [attributed_updateAttr _ a.code s
          (fun x => { x with ochanged := true, ovalue := v2 }) (fun x => rfl)]
    rw [hmem2]
    simp
  have htx3 : ({ ({ (m.start { notify := some true }).updateAttr a.code
        (fun x => { x with ochanged := true, ovalue := v1 }) with
      _transactions :=
        ({ notify := true, validate := true, push := true, force := false,
           _notifyd := insertCode [] a.code, _pushd := insertCode [] a.code } : Frame) :: [] } :
      Model).updateAttr a.code (fun x => { x with ochanged := true, ovalue := v2 }) with
      _transactions :=
        ({ notify := true, validate := true, push := true, force := false,
           _notifyd := insertCode [s] a.code, _pushd := insertCode [s] a.code } : Frame) :: [] } :
      Model)._transactions
      = ({ notify := true, validate := true, push := true, force := false,
           _notifyd := [s], _pushd := [s] } : Frame) :: [] := by
    simp [insertCode, hac]
  have hend := end_singleton _ _ [] s { a with ochanged := true, ovalue := v2 }
    htx3 rfl rfl hmem3
  simp only [Model.run, List.foldl_cons, List.foldl_nil]
  rw [hset1]
  simp only []
  rw [hset2]
  simp only []
  rw [hend]
  simp only [List.nil_append, List.append_nil]
  refine ⟨_, _, rfl, ?_, ?_⟩
  · simp [hcb, hiv, hb, hmap, Event.isCall, mapValue, List.filter_append,
      apply_ite (List.filter Event.isCall), List.filter]
    exact fun h => h.symm
  · simp [hcb, hiv, hb, hmap, Event.isPush, mapValue, List.filter_append,
      apply_ite (List.filter Event.isPush), List.filter]
/-- Folding a step that preserves a property of the accumulated events. -/
theorem foldl_pres {α β : Type} (P : β → Prop) (step : List β → α → List β)
    (hstep : ∀ acc c, (∀ e ∈ acc, P e) → ∀ e ∈ step acc c, P e) :
    ∀ (l : List α) (acc : List β), (∀ e ∈ acc, P e) → ∀ e ∈ l.foldl step acc, P e := by
  intro l
  induction l with
  | nil => intro acc hacc e he; exact hacc e he
  | cons c cs ih =>
    intro acc hacc e he
    exact ih (step acc c) (hstep acc c hacc) e he

/-- Every event of `_do_notifies` is a listener callback or the `state`
emitter event. -/
theorem do_notifies_kinds (m : Model) (codes : List String) :
    ∀ e ∈ m._do_notifies codes, (∃ cb c val, e = Event.call cb c val) ∨ e = Event.state := by
  unfold Model._do_notifies
  intro e he
  have hfold := foldl_pres (fun e => ∃ cb c val, e = Event.call cb c val)
    (fun acc attribute_key =>
      match m.attributed attribute_key with
      | none => acc
      | some attr =>
          let attribute_value :=
            if attr.ivalue ≠ .null then attr.ivalue
            else if attr.ovalue ≠ .null then attr.ovalue
            else .null
          let callbacks :=
            match alookup m.callbacksd attribute_key with
            | some cbs => some cbs
            | none => m.callbacksNull
          match callbacks with
          | some cbs => acc ++ cbs.map (fun cb => Event.call cb attribute_key attribute_value)
          | none => acc)
    (by
      intro acc c hacc e he
      simp only [] at he
      rcases hma : m.attributed c with _ | attr
      · rw [hma] at he; exact hacc e he
      · rw [hma] at he
        simp only at he
        rcases hcb : (match alookup m.callbacksd c with
            | some cbs => some cbs
            | none => m.callbacksNull) with _ | cbs
        · rw [hcb] at he; exact hacc e he
        · rw [hcb] at he
          rcases List.mem_append.mp he with h | h
          · exact hacc e h
          · rcases List.mem_map.mp h with ⟨cb, _, hcb2⟩
            exact ⟨cb, _, _, hcb2.symm⟩)
    codes [] (by simp)
  by_cases hemp : codes.isEmpty
  · rw [if_pos hemp] at he
    exact Or.inl (hfold e he)
  · rw [if_neg hemp] at he
    rcases List.mem_append.mp he with h | h
    · exact Or.inl (hfold e h)
    · simp at h; exact Or.inr h

/-- Once the changed flags of the attribute stored under `c` are down, any
sequence of flag-clearing updates keeps them down. -/
theorem cleared_preserved (l : List String) (m : Model) (c : String)
    (h : ∀ a', m.attributed c = some a' → a'.ichanged = false ∧ a'.ochanged = false) :
    ∀ a', (l.foldl (fun mm c' => mm.updateAttr c'
        (fun a => { a with ichanged := false, ochanged := false })) m).attributed c = some a' →
      a'.ichanged = false ∧ a'.ochanged = false := by
  induction l generalizing m with
  | nil => exact h
  | cons c0 cs ih =>
    intro a' ha'
    refine ih (m.updateAttr c0 (fun a => { a with ichanged := false, ochanged := false })) ?_ a' ha'
    intro x hx
    rw [attributed_updateAttr m c0 c
          (fun a => { a with ichanged := false, ochanged := false }) (fun y => rfl)] at hx
    rcases hma : m.attributed c with _ | y
    · rw [hma] at hx; simp at hx
    · rw [hma] at hx
      simp only [Option.map_some'] at hx
      injection hx with hx
      by_cases hyc : (y.code == c0) = true
      · rw [if_pos hyc] at hx
        rw [← hx]
        exact ⟨rfl, rfl⟩
      · rw [if_neg hyc] at hx
        rw [← hx]
        exact h y hma

/-- Clearing the flags of every code in the list leaves every listed
attribute with both changed flags down. -/
theorem clear_foldl (codes : List String) (m : Model) :
    ∀ c ∈ codes, ∀ a', (codes.foldl (fun mm c' => mm.updateAttr c'
        (fun a => { a with ichanged := false, ochanged := false })) m).attributed c = some a' →
      a'.ichanged = false ∧ a'.ochanged = false := by
  induction codes generalizing m with
  | nil => intro c hc; cases hc
  | cons c0 cs ih =>
    intro c hc
    rcases List.mem_cons.mp hc with h | h
    · subst h
      simp only [List.foldl_cons]
      refine cleared_preserved cs _ c ?_
      intro x hx
      rw [attributed_updateAttr m c c
            (fun a => { a with ichanged := false, ochanged := false }) (fun y => rfl)] at hx
      rcases hma : m.attributed c with _ | y
      · rw [hma] at hx; simp at hx
      · rw [hma] at hx
        simp only [Option.map_some'] at hx
        injection hx with hx
        have hyc : y.code = c := attrLookup_code hma
        rw [if_pos (by simp [hyc])] at hx
        rw [← hx]
        exact ⟨rfl, rfl⟩
    · simp only [List.foldl_cons]
      exact ih _ c h

/-- Claim C3: `end()` with an open frame works in strict order — first the
per-attribute listener callbacks (only when the frame's `notify` flag is
true), then unconditionally the coarse `istate`/`ostate` events exactly
when some pending attribute has the corresponding changed flag (which it
clears), then the batched driver push (only when the frame's `push` flag
is true) — and `end()` with no open transaction is a tolerated no-op. -/
theorem claim_C3 (m : Model) (f : Frame) (rest : List Frame) :
    (m._transactions = [] → m.end' = (m, []))
    ∧ (m._transactions = f :: rest →
       ∃ nevs sevs pevs,
         (m.end').2 = nevs ++ sevs ++ pevs
         ∧ (m.end').1._transactions = rest
         ∧ (∀ e ∈ nevs, (∃ cb c val, e = Event.call cb c val) ∨ e = Event.state)
         ∧ (f.notify = false → nevs = [])
         ∧ (∀ e ∈ sevs, e = Event.istate ∨ e = Event.ostate)
         ∧ (Event.istate ∈ sevs ↔
             ∃ c ∈ f._notifyd, ∃ a, m.attributed c = some a ∧ a.ichanged = true)
         ∧ (Event.ostate ∈ sevs ↔
             ∃ c ∈ f._notifyd, ∃ a, m.attributed c = some a ∧ a.ochanged = true)
         ∧ (∀ e ∈ pevs, ∃ bid d, e = Event.push bid d)
         ∧ (f.push = false → pevs = [])
         ∧ (∀ c ∈ f._notifyd, ∀ a', (m.end').1.attributed c = some a' →
              a'.ichanged = false ∧ a'.ochanged = false)) := by
  constructor
  · intro htx; exact end_notx m htx
  · intro htx
    rcases hdn : m._do_notifies2 f._notifyd with ⟨m2, ev2⟩
    have hev2 : ev2 =
        (if (f._notifyd.any fun c =>
              match m.attributed c with | some a => a.ichanged | none => false)
          then [Event.istate] else [])
        ++ (if (f._notifyd.any fun c =>
              match m.attributed c with | some a => a.ochanged | none => false)
          then [Event.ostate] else []) := by
      have h2 := congrArg Prod.snd hdn
      simpa [Model._do_notifies2] using h2.symm
    have hm2 : m2 = f._notifyd.foldl (fun mm c => mm.updateAttr c
        (fun a => { a with ichanged := false, ochanged := false })) m := by
      have h1 := congrArg Prod.fst hdn
      simpa [Model._do_notifies2] using h1.symm
    have hp : ∀ c, ((match m.attributed c with | some a => a.ichanged | none => false) = true)
        ↔ (∃ a, m.attributed c = some a ∧ a.ichanged = true) := by
      intro c
      rcases hma : m.attributed c with _ | a <;> simp
    have hq : ∀ c, ((match m.attributed c with | some a => a.ochanged | none => false) = true)
        ↔ (∃ a, m.attributed c = some a ∧ a.ochanged = true) := by
      intro c
      rcases hma : m.attributed c with _ | a <;> simp
    refine ⟨if f.notify then m._do_notifies f._notifyd else [], ev2,
            if f.push then m2._do_pushes f._pushd else [],
            ?_, ?_, ?_, ?_, ?_, ?_, ?_, ?_, ?_, ?_⟩
    · simp only [Model.end', htx, hdn]
    · simp only [Model.end', htx, hdn]
    · intro e he
      by_cases hn : f.notify
      · rw [if_pos hn] at he
        exact do_notifies_kinds m f._notifyd e he
      · rw [if_neg hn] at he
        cases he
    · intro h
      simp [h]
    · intro e he
      rw [hev2] at he
      rcases List.mem_append.mp he with h | h
      · left
        by_cases hi : (f._notifyd.any fun c =>
            match m.attributed c with | some a => a.ichanged | none => false)
        · rw [if_pos hi] at h; simpa using h
        · rw [if_neg hi] at h; cases h
      · right
        by_cases ho : (f._notifyd.any fun c =>
            match m.attributed c with | some a => a.ochanged | none => false)
        · rw [if_pos ho] at h; simpa using h
        · rw [if_neg ho] at h; cases h
    · rw [hev2]
      rw [show (∃ c ∈ f._notifyd, ∃ a, m.attributed c = some a ∧ a.ichanged = true)
            ↔ (f._notifyd.any fun c =>
                match m.attributed c with | some a => a.ichanged | none => false) = true by
          rw [List.any_eq_true]
          constructor
          · rintro ⟨c, hc, hex⟩; exact ⟨c, hc, (hp c).mpr hex⟩
          · rintro ⟨c, hc, hex⟩; exact ⟨c, hc, (hp c).mp hex⟩]
      by_cases hi : (f._notifyd.any fun c =>
          match m.attributed c with | some a => a.ichanged | none => false)
        <;> by_cases ho : (f._notifyd.any fun c =>
          match m.attributed c with | some a => a.ochanged | none => false)
        <;> simp [hi, ho]
    · rw [hev2]
      rw [show (∃ c ∈ f._notifyd, ∃ a, m.attributed c = some a ∧ a.ochanged = true)
            ↔ (f._notifyd.any fun c =>
                match m.attributed c with | some a => a.ochanged | none => false) = true by
          rw [List.any_eq_true]
          constructor
          · rintro ⟨c, hc, hex⟩; exact ⟨c, hc, (hq c).mpr hex⟩
          · rintro ⟨c, hc, hex⟩; exact ⟨c, hc, (hq c).mp hex⟩]
      by_cases hi : (f._notifyd.any fun c =>
          match m.attributed c with | some a => a.ichanged | none => false)
        <;> by_cases ho : (f._notifyd.any fun c =>
          match m.attributed c with | some a => a.ochanged | none => false)
        <;> simp [hi, ho]
    · intro e he
      by_cases hpu : f.push
      · rw [if_pos hpu] at he
        unfold Model._do_pushes at he
        rcases hbr : m2.bridge_instance with _ | b
        · rw [hbr] at he; cases he
        · rw [hbr] at he
          simp at he
          exact ⟨b.id, _, he⟩
      · rw [if_neg hpu] at he
        cases he
    · intro h; simp [h]
    · intro c hc a' ha'
      have : (m.end').1.attributed c = m2.attributed c := by
        simp only [Model.end', htx, hdn]
        rfl
      rw [this, hm2] at ha'
      exact clear_foldl f._notifyd m c hc a' ha'

/-- Claim C4, failing input: with two attributes sharing the purpose
`temperature`, both reading-role and neither control-role, a purpose-based
find with `set` intent falls into the source's `return match_control`
branch — `match_control` being `null` there — instead of choosing a
reading-role match as the spec's disambiguation order demands. -/
theorem claim_C4 :
    Mtemp._find (.purpose "iot-attribute:temperature") { set := true }
      = FindResult.foundNull := by
  rfl

/-- Claim C5, failing input: `_find` never descends into sub-entities.
`"x/y/on"` should fail with NotFound (`x` matches no sub-entity), but the
source merely deletes the first `/`-run, splits, and looks only at the
last segment, resolving to the root's own `on` attribute. -/
theorem claim_C5 :
    Mw._find (.str "x/y/on") { get := true } = FindResult.found attrOn := by
  rfl

/-- Claim C8, failing input: `set(":temperature", 20)` on a Thing whose two
`temperature` attributes are reading-only reaches the null find result of
the C4 branch, and `set` then throws a `TypeError` dereferencing
`rd.attribute` — the error is not recovered locally. -/
theorem claim_C8 :
    Mtemp.set (.str ":temperature") (.num 20) = SetOutcome.thrown := by
  rfl

theorem alookup_dset_self {α : Type} (l : List (String × α)) (k : String) (v : α) :
    alookup (dset l k v) k = some v := by
  induction l with
  | nil => simp [dset, alookup]
  | cons kv rest ih =>
    obtain ⟨k', v'⟩ := kv
    by_cases h : (k' == k) = true
    · simp [dset, h, alookup]
    · simp [dset, h, alookup, ih]

theorem alookup_dset_ne {α : Type} (l : List (String × α)) (k k' : String) (v : α)
    (h : ¬ (k = k')) : alookup (dset l k v) k' = alookup l k' := by
  induction l with
  | nil => simp [dset, alookup, h]
  | cons kv rest ih =>
    obtain ⟨k0, v0⟩ := kv
    by_cases h0 : (k0 == k) = true
    · have hk0 : k0 = k := eq_of_beq h0
      subst hk0
      simp [dset, alookup, h]
    · simp [dset, h0, alookup, ih]

theorem alookup_foldl_dset_not_mem (g : Attribute → Value) (l : List Attribute)
    (c : String) (init : List (String × Value))
    (h : c ∉ l.map (fun x => x.code)) :
    alookup (l.foldl (fun st x => dset st x.code (g x)) init) c = alookup init c := by
  induction l generalizing init with
  | nil => rfl
  | cons x rest ih =>
    have hx : ¬ (x.code = c) := by
      intro hc
      exact h (by simp [hc])
    have hr : c ∉ rest.map (fun y => y.code) := by
      intro hc
      exact h (List.mem_cons_of_mem _ hc)
    simp only [List.foldl_cons]
    rw [ih _ hr, alookup_dset_ne _ _ _ _ hx]

/-- In a `state()`-style fold over attributes with unique codes, the entry
stored for a listed attribute is exactly its computed value. -/
theorem state_pref (l : List Attribute) (g : Attribute → Value) (a : Attribute)
    (init : List (String × Value)) (hmem : a ∈ l)
    (hnd : (l.map (fun x => x.code)).Nodup) :
    alookup (l.foldl (fun st x => dset st x.code (g x)) init) a.code = some (g a) := by
  induction l generalizing init with
  | nil => cases hmem
  | cons x rest ih =>
    rcases List.mem_cons.mp hmem with h | h
    · subst h
      have hnot : a.code ∉ rest.map (fun y => y.code) := (List.nodup_cons.mp hnd).1
      simp only [List.foldl_cons]
      rw [alookup_foldl_dset_not_mem g rest a.code _ hnot, alookup_dset_self]
    · simp only [List.foldl_cons]
      exact ih _ h (List.nodup_cons.mp hnd).2

/-- Claim C7: a resolved `get` returns `_ivalue` when non-null, else
`_ovalue` when non-null, else `null` — input preferred over output — and
the same preference yields each attribute's entry in `state()` (both state
flags requested). -/
theorem claim_C7 (m : Model) (key : FindKey) (a : Attribute)
    (hfind : m._find key { get := true } = .found a)
    (hmem : a ∈ m.attributes)
    (hnd : (m.attributes.map (fun x => x.code)).Nodup) :
    m.get key = .value (if a.ivalue ≠ Value.null then a.ivalue
        else if a.ovalue ≠ Value.null then a.ovalue else Value.null)
    ∧ alookup (m.state true true) a.code
        = some (if a.ivalue ≠ Value.null then a.ivalue
            else if a.ovalue ≠ Value.null then a.ovalue else Value.null) := by
  constructor
  · simp only [Model.get, hfind]
    by_cases hi : a.ivalue = Value.null
    · by_cases ho : a.ovalue = Value.null <;> simp [hi, ho]
    · simp [hi]
  · unfold Model.state
    rw [state_pref m.attributes _ a [] hmem hnd]
    simp

theorem mem_updateAttr (m : Model) (c : String) (f : Attribute → Attribute)
    (x : Attribute) (hx : x ∈ m.attributes) (hxc : ¬ (x.code = c)) :
    x ∈ (m.updateAttr c f).attributes := by
  unfold Model.updateAttr
  have h := List.mem_map_of_mem (fun y => if y.code == c then f y else y) hx
  simpa [hxc] using h

theorem call_not_in_do_pushes (m : Model) (codes : List String) (cb : Nat)
    (c : String) (val : Value) : Event.call cb c val ∉ m._do_pushes codes := by
  unfold Model._do_pushes
  rcases m.bridge_instance with _ | b <;> simp

/-- A callback fired by an immediate single-attribute `_do_notifies` comes
from the attribute's own callback list, or from the `null`-key list when no
per-attribute list is registered. -/
theorem call_in_do_notifies (m : Model) (c0 : String) (cb : Nat) (c : String) (val : Value)
    (h : Event.call cb c val ∈ m._do_notifies [c0]) :
    c = c0 ∧ ((∃ l, alookup m.callbacksd c0 = some l ∧ cb ∈ l)
        ∨ (alookup m.callbacksd c0 = none ∧ ∃ l, m.callbacksNull = some l ∧ cb ∈ l)) := by
  unfold Model._do_notifies at h
  simp only [List.foldl_cons, List.foldl_nil, List.isEmpty_cons, Bool.false_eq_true,
    if_false] at h
  rcases List.mem_append.mp h with h1 | h1
  swap
  · simp at h1
  rcases hma : m.attributed c0 with _ | attr
  · rw [hma] at h1; cases h1
  · rw [hma] at h1
    simp only [] at h1
    rcases halo : alookup m.callbacksd c0 with _ | cbs
    · rw [halo] at h1
      simp only [] at h1
      rcases hnull : m.callbacksNull with _ | l
      · rw [hnull] at h1; cases h1
      · rw [hnull] at h1
        simp only [List.nil_append] at h1
        rcases List.mem_map.mp h1 with ⟨cb2, hcb2, heq⟩
        injection heq with e1 e2 e3
        subst e1; subst e2
        exact ⟨rfl, Or.inr ⟨rfl, l, rfl, hcb2⟩⟩
    · rw [halo] at h1
      simp only [List.nil_append] at h1
      rcases List.mem_map.mp h1 with ⟨cb2, hcb2, heq⟩
      injection heq with e1 e2 e3
      subst e1; subst e2
      exact ⟨rfl, Or.inl ⟨cbs, rfl, hcb2⟩⟩

/-- Claim C9: a `set` that resolves to attribute `a` never changes any
other attribute (every attribute with a different code is still present,
unchanged, in the result) and never invokes a listener registered
specifically for another attribute: every callback fired carries `a`'s
code and comes from `a`'s own callback list — or from the `null`-key
fallback when `a` has no list of its own. -/
theorem claim_C9 (m : Model) (key : FindKey) (v : Value) (a : Attribute)
    (hfind : m._find key { set := true } = .found a) :
    ∃ m' evs, m.set key v = .ok m' evs
      ∧ (∀ x ∈ m.attributes, ¬ (x.code = a.code) → x ∈ m'.attributes)
      ∧ (∀ cb c val, Event.call cb c val ∈ evs →
          c = a.code
          ∧ ((∃ l, alookup m.callbacksd a.code = some l ∧ cb ∈ l)
             ∨ (alookup m.callbacksd a.code = none
                ∧ ∃ l, m.callbacksNull = some l ∧ cb ∈ l))) := by
  simp only [Model.set, hfind, Model._validate]
  by_cases hdd : (m.setForce = false
      ∧ (if m.setPush then a.ovalue else a.ivalue)
          = (if m.setValidate then a.validate v else v))
  · rw [if_pos hdd]
    exact ⟨m, [], rfl, fun x hx _ => hx, by simp⟩
  · rw [if_neg hdd]
    by_cases hp : m.setPush = true
    · rw [if_pos hp]
      rcases htx : m._transactions with _ | ⟨f, rest⟩
      · simp only [Model._do_push, Model._do_notify, Model._notify_now,
          updateAttr_transactions, htx, Model._do_notifies2,
          List.foldl_cons, List.foldl_nil]
        refine ⟨_, _, rfl, ?_, ?_⟩
        · intro x hx hxc
          exact mem_updateAttr _ _ _ x (mem_updateAttr _ _ _ x hx hxc) hxc
        · intro cb c val hcv
          rcases List.mem_append.mp hcv with h1 | h1
          · exact absurd h1 (call_not_in_do_pushes _ _ _ _ _)
          · rcases List.mem_append.mp h1 with h2 | h2
            · have h3 := call_in_do_notifies _ _ _ _ _ h2
              simpa using h3
            · rcases List.mem_append.mp h2 with h3 | h3
              · by_cases hic : (match (m.updateAttr a.code fun x =>
                    { x with ochanged := true, ovalue := if m.setValidate = true
                        then a.validate v else v }).attributed a.code with
                    | some a => a.ichanged
                    | none => false) = true
                · rw [if_pos (by simpa using hic)] at h3
                  simp at h3
                · rw [if_neg (by simpa using hic)] at h3
                  cases h3
              · by_cases hoc : (match (m.updateAttr a.code fun x =>
                    { x with ochanged := true, ovalue := if m.setValidate = true
                        then a.validate v else v }).attributed a.code with
                    | some a => a.ochanged
                    | none => false) = true
                · rw [if_pos (by simpa using hoc)] at h3
                  simp at h3
                · rw [if_neg (by simpa using hoc)] at h3
                  cases h3
      · simp only [Model._do_push, Model._do_notify, updateAttr_transactions, htx,
          Bool.false_eq_true, if_false]
        refine ⟨_, _, rfl, ?_, ?_⟩
        · intro x hx hxc
          exact mem_updateAttr _ _ _ x hx hxc
        · intro cb c val hcv
          cases hcv
    · rw [if_neg hp]
      rcases htx : m._transactions with _ | ⟨f, rest⟩
      · simp only [Model._do_notify, Model._notify_now, updateAttr_transactions, htx,
          Model._do_notifies2, List.foldl_cons, List.foldl_nil]
        refine ⟨_, _, rfl, ?_, ?_⟩
        · intro x hx hxc
          exact mem_updateAttr _ _ _ x (mem_updateAttr _ _ _ x hx hxc) hxc
        · intro cb c val hcv
          rcases List.mem_append.mp hcv with h1 | h1
          · have h3 := call_in_do_notifies _ _ _ _ _ h1
            simpa using h3
          · rcases List.mem_append.mp h1 with h3 | h3
            · by_cases hic : (match (m.updateAttr a.code fun x =>
                  { x with ichanged := true, ivalue := if m.setValidate = true
                      then a.validate v else v }).attributed a.code with
                  | some a => a.ichanged
                  | none => false) = true
              · rw [if_pos (by simpa using hic)] at h3
                simp at h3
              · rw [if_neg (by simpa using hic)] at h3
                cases h3
            · by_cases hoc : (match (m.updateAttr a.code fun x =>
                  { x with ichanged := true, ivalue := if m.setValidate = true
                      then a.validate v else v }).attributed a.code with
                  | some a => a.ochanged
                  | none => false) = true
              · rw [if_pos (by simpa using hoc)] at h3
                simp at h3
              · rw [if_neg (by simpa using hoc)] at h3
                cases h3
      · simp only [Model._do_notify, updateAttr_transactions, htx,
          Bool.false_eq_true, if_false]
        refine ⟨_, _, rfl, ?_, ?_⟩
        · intro x hx hxc
          exact mem_updateAttr _ _ _ x hx hxc
        · intro cb c val hcv
          cases hcv

/-- Claim C10: with no transaction open (so the push flag defaults on), a
value-changing `set` on a bound Thing delivers the batched push to the
bridge strictly first — the event trace begins with the push, and no other
push follows — and only afterwards fires the per-attribute listener
callbacks and the coarse `state`/`ostate` events. -/
theorem claim_C10 (m : Model) (key : FindKey) (v : Value) (a : Attribute) (b : Bridge)
    (hfind : m._find key { set := true } = .found a)
    (htx : m._transactions = [])
    (hmem : m.attributed a.code = some a)
    (hne : ¬ (a.ovalue = a.validate v))
    (hb : m.bridge_instance = some b) :
    ∃ m' pd rest,
      m.set key v = .ok m' (Event.push b.id pd :: rest)
      ∧ alookup pd a.code = some (mapValue b.mapping a.code (a.validate v))
      ∧ (∀ e ∈ rest, e.isPush = false)
      ∧ Event.state ∈ rest ∧ Event.ostate ∈ rest
      ∧ (∀ l, alookup m.callbacksd a.code = some l →
          ∀ cb ∈ l, ∃ val, Event.call cb a.code val ∈ rest) := by
  have h := set_immediate m key v a hfind htx hmem hne
  rw [hb] at h
  simp only [List.singleton_append] at h
  refine ⟨_, _, _, h, ?_, ?_, ?_, ?_, ?_⟩
  · simp [alookup]
  · intro e he
    rcases List.mem_append.mp he with h1 | h1
    · rcases hcb2 : (match alookup m.callbacksd a.code with
          | some cbs => some cbs
          | none => m.callbacksNull) with _ | cbs
      · rw [hcb2] at h1; cases h1
      · rw [hcb2] at h1
        rcases List.mem_map.mp h1 with ⟨cb2, _, heq⟩
        rw [← heq]
        rfl
    · rcases List.mem_cons.mp h1 with h2 | h2
      · subst h2; rfl
      · rcases List.mem_append.mp h2 with h3 | h3
        · by_cases hic : a.ichanged = true
          · rw [if_pos hic] at h3; simp at h3; subst h3; rfl
          · rw [if_neg hic] at h3; cases h3
        · simp at h3; subst h3; rfl
  · simp
  · simp
  · intro l hl cb hcb
    simp only [hl]
    exact ⟨_, List.mem_append_left _ (List.mem_map_of_mem _ hcb)⟩

/-- Claim C6, counterexample: rebinding a Thing (bound to bridge A,
identity `urn:thing-a:L`) to bridge B changes `identity()` to
`urn:thing-b:L` — the prior identity is not preserved — and the rebind
emits only the `meta` event: the old bridge's `disconnect` is never
invoked. -/
theorem claim_C6_counterexample :
    (M6.bind_bridge (some bridgeB)).1.identity ≠ M6.identity
    ∧ (M6.bind_bridge (some bridgeB)).2 = [Event.meta] := by
  decide

/-- Claim C6 (amended): `bind_bridge` swaps the driver in place leaving
every attribute's input/output values unchanged, but it recomputes the
identity from the NEW driver's descriptor plus the entity code — the prior
`identity()` survives only when the two descriptors agree — and it never
invokes the old driver's `disconnect` (only `meta` is emitted); the
separate `disconnect()` call is what invokes the old driver's `disconnect`
before dropping the binding. -/
theorem claim_C6 (m : Model) (b1 b2 : Bridge)
    (hb : m.bridge_instance = some b1) :
    (m.bind_bridge (some b2)).1.attributes = m.attributes
    ∧ (m.bind_bridge (some b2)).1.bridge_instance = some b2
    ∧ (m.bind_bridge (some b2)).1.identity = some (b2.thingMeta ++ ":" ++ m.code)
    ∧ (m.bind_bridge (some b2)).2 = [Event.meta]
    ∧ (∀ e ∈ (m.bind_bridge (some b2)).2, e.isDisconnected = false)
    ∧ ((m.bind_bridge (some b2)).1.identity = m.identity
        ↔ m._identityd = some (b2.thingMeta ++ ":" ++ m.code))
    ∧ (∀ w, b1.disconnectWait = some w →
        m.disconnect = ({ m with bridge_instance := none },
          [Event.disconnected b1.id], w)) := by
  refine ⟨rfl, rfl, rfl, rfl, ?_, ?_, ?_⟩
  · intro e he
    simp only [Model.bind_bridge, Model.meta_changed] at he
    simp at he
    subst he
    rfl
  · simp only [Model.bind_bridge, Model.identity]
    exact eq_comm
  · intro w hw
    simp only [Model.disconnect, hb, hw]

/-! ### Witnesses -/

theorem claim_C1_witness :
    Mw2.set (.str "on") (.bool true) = .ok Mw2 []
    ∧ ({ Mw2 with _transactions := [Fw] } : Model).set (.str "on") (.bool true)
        = .ok { Mw2 with _transactions := [Fw] } []
    ∧ (∃ m1 evs1,
        Mw2.run [Op.start { notify := some true, force := some true },
                 Op.set (.str "on") (.bool true), Op.endTx] = some (m1, evs1)
        ∧ (∃ pd, Event.push 0 pd ∈ evs1)
        ∧ Event.state ∈ evs1 ∧ Event.ostate ∈ evs1
        ∧ (∀ l, alookup Mw2.callbacksd "on" = some l →
            ∀ cb ∈ l, ∃ val, Event.call cb "on" val ∈ evs1)
        ∧ ∃ m2 evs2,
            m1.run [Op.start { notify := some true, force := some true },
                    Op.set (.str "on") (.bool true), Op.endTx] = some (m2, evs2)
            ∧ (∃ pd, Event.push 0 pd ∈ evs2)
            ∧ Event.state ∈ evs2 ∧ Event.ostate ∈ evs2
            ∧ (∀ l, alookup Mw2.callbacksd "on" = some l →
                ∀ cb ∈ l, ∃ val, Event.call cb "on" val ∈ evs2)) :=
  claim_C1 Mw2 "on" (.bool true) attrOnSet bridgeA Fw []
    (by decide) (by decide) rfl rfl rfl rfl rfl rfl

theorem claim_C2_witness :
    ∃ m' evs,
      Mw.run [Op.start { notify := some true }, Op.set (.str "intensity") (.num 1),
              Op.set (.str "intensity") (.num 2), Op.endTx] = some (m', evs)
      ∧ evs.filter Event.isCall = [Event.call 8 "intensity" (.num 2)]
      ∧ evs.filter Event.isPush = [Event.push 0 [("intensity", .num 2)]] :=
  claim_C2 Mw "intensity" (.num 1) (.num 2) attrIntensity bridgeA 8
    (by decide) (by decide) rfl rfl rfl rfl rfl rfl rfl rfl (by decide) (by decide)

theorem claim_C3_witness :
    ∃ nevs sevs pevs,
      (Mc3.end').2 = nevs ++ sevs ++ pevs
      ∧ (Mc3.end').1._transactions = []
      ∧ (∀ e ∈ nevs, (∃ cb c val, e = Event.call cb c val) ∨ e = Event.state)
      ∧ (Fc3.notify = false → nevs = [])
      ∧ (∀ e ∈ sevs, e = Event.istate ∨ e = Event.ostate)
      ∧ (Event.istate ∈ sevs ↔
          ∃ c ∈ Fc3._notifyd, ∃ a, Mc3.attributed c = some a ∧ a.ichanged = true)
      ∧ (Event.ostate ∈ sevs ↔
          ∃ c ∈ Fc3._notifyd, ∃ a, Mc3.attributed c = some a ∧ a.ochanged = true)
      ∧ (∀ e ∈ pevs, ∃ bid d, e = Event.push bid d)
      ∧ (Fc3.push = false → pevs = [])
      ∧ (∀ c ∈ Fc3._notifyd, ∀ a', (Mc3.end').1.attributed c = some a' →
           a'.ichanged = false ∧ a'.ochanged = false) :=
  (claim_C3 Mc3 Fc3 []).2 rfl

theorem claim_C6_witness :
    (M6.bind_bridge (some bridgeB)).1.attributes = M6.attributes
    ∧ (M6.bind_bridge (some bridgeB)).1.bridge_instance = some bridgeB
    ∧ (M6.bind_bridge (some bridgeB)).1.identity
        = some (bridgeB.thingMeta ++ ":" ++ M6.code)
    ∧ (M6.bind_bridge (some bridgeB)).2 = [Event.meta]
    ∧ (∀ e ∈ (M6.bind_bridge (some bridgeB)).2, e.isDisconnected = false)
    ∧ ((M6.bind_bridge (some bridgeB)).1.identity = M6.identity
        ↔ M6._identityd = some (bridgeB.thingMeta ++ ":" ++ M6.code))
    ∧ (∀ w, bridgeA.disconnectWait = some w →
        M6.disconnect = ({ M6 with bridge_instance := none },
          [Event.disconnected bridgeA.id], w)) :=
  claim_C6 M6 bridgeA bridgeB rfl

theorem claim_C7_witness :
    M7.get (.str "x") = .value (.num 1)
    ∧ alookup (M7.state true true) "x" = some (.num 1) :=
  claim_C7 M7 (.str "x") attrBoth rfl (List.mem_cons_self _ _) (by decide)

theorem claim_C9_witness :
    ∃ m' evs, Mw.set (.str "on") (.num 10) = .ok m' evs
      ∧ (∀ x ∈ Mw.attributes, ¬ (x.code = "on") → x ∈ m'.attributes)
      ∧ (∀ cb c val, Event.call cb c val ∈ evs →
          c = "on"
          ∧ ((∃ l, alookup Mw.callbacksd "on" = some l ∧ cb ∈ l)
             ∨ (alookup Mw.callbacksd "on" = none
                ∧ ∃ l, Mw.callbacksNull = some l ∧ cb ∈ l))) :=
  claim_C9 Mw (.str "on") (.num 10) attrOn rfl

theorem claim_C10_witness :
    ∃ m' pd rest,
      Mw.set (.str "intensity") (.num 5) = .ok m' (Event.push 0 pd :: rest)
      ∧ alookup pd "intensity" = some (.num 5)
      ∧ (∀ e ∈ rest, e.isPush = false)
      ∧ Event.state ∈ rest ∧ Event.ostate ∈ rest
      ∧ (∀ l, alookup Mw.callbacksd "intensity" = some l →
          ∀ cb ∈ l, ∃ val, Event.call cb "intensity" val ∈ rest) :=
  claim_C10 Mw (.str "intensity") (.num 5) attrIntensity bridgeA
    rfl rfl rfl (by decide) rfl

end Iotdb
